import Mathlib

/-!
Shallow embedding of the img-optimize batch image-optimization CLI
(src/img_optimize/utils.py, optimizer.py, cli.py), together with proofs
of the stated behavioural properties.

Modelling conventions:
* Python `float` arithmetic in utils.py and optimizer.py is modelled by
  exact rational arithmetic over `ℚ`; `int(x)` on a nonnegative value is
  floor, modelled by `Nat` floor division where the operands are integers.
* `f"{v:.2f}"` string formatting is modelled by rounding `v * 100` to the
  nearest integer and printing two decimal digits.
* External calls (PIL decode/encode, filesystem IO) are modelled by an
  environment record carrying their observable outcomes; an exception in
  an external call is an explicit `failAt` marker in that record.
-/

namespace ImgOptimize

/-! ## utils.py -/

/-- utils.py: `BYTES_PER_KB: int = 1024` (used as a divisor of a float). -/
def BYTES_PER_KB : ℚ := 1024

/-- utils.py: `SIZE_UNITS: List[str] = ["B", "KB", "MB", "GB", "TB"]`. -/
def SIZE_UNITS : List String := ["B", "KB", "MB", "GB", "TB"]

/-- Two decimal digits of the fractional part: the digits of `n % 100`. -/
def twoDigits (n : ℤ) : String :=
  if n < 10 then "0" ++ toString n else toString n

/-- Model of Python `f"\x7bsize:.2f\x7d"` on a nonnegative value: round
`size * 100` to the nearest integer and print it with two decimals. -/
def format2 (q : ℚ) : String :=
  let n : ℤ := round (q * 100)
  toString (n / 100) ++ "." ++ twoDigits (n % 100)

/-- The loop body of `format_size`: for each unit in `SIZE_UNITS[:-1]`,
return `f"\x7bsize:.2f\x7d \x7bunit\x7d"` once `size < BYTES_PER_KB`, else divide
`size` by `BYTES_PER_KB` and continue; after the loop, use `SIZE_UNITS[-1]`. -/
def formatSizeGo : ℚ → List String → String
  | size, [] => format2 size ++ " " ++ SIZE_UNITS.getLastD ""
  | size, u :: us =>
    if size < BYTES_PER_KB then format2 size ++ " " ++ u
    else formatSizeGo (size / BYTES_PER_KB) us

/-- utils.py `format_size`: format a byte count into a human-readable size. -/
def format_size (bytes_size : ℚ) : String :=
  formatSizeGo bytes_size SIZE_UNITS.dropLast

/-- Number of divisions by 1024 that `format_size` performs before
printing, i.e. the index of the unit scale the value falls in. -/
def sizeScaleGo : ℚ → Nat → Nat
  | _, 0 => 0
  | size, n + 1 =>
    if size < BYTES_PER_KB then 0
    else sizeScaleGo (size / BYTES_PER_KB) n + 1

/-- The unit-scale index selected by `format_size` (0 = B, …, 4 = TB). -/
def sizeScale (q : ℚ) : Nat := sizeScaleGo q (SIZE_UNITS.length - 1)

/-- The numeric value printed by `format_size`, in hundredths: the byte
count scaled into its unit and rounded to two decimals. -/
def displayNum (q : ℚ) : ℤ := round (q / BYTES_PER_KB ^ sizeScale q * 100)

lemma sizeScaleGo_le (n : Nat) : ∀ q : ℚ, sizeScaleGo q n ≤ n := by
  induction n with
  | zero => intro q; simp [sizeScaleGo]
  | succ m ih =>
      intro q
      rw [sizeScaleGo]
      split_ifs with h
      · exact Nat.zero_le _
      · exact Nat.succ_le_succ (ih _)

lemma formatSizeGo_eq (units : List String) : ∀ q : ℚ,
    formatSizeGo q units =
      format2 (q / BYTES_PER_KB ^ sizeScaleGo q units.length) ++ " " ++
        units.getD (sizeScaleGo q units.length) (SIZE_UNITS.getLastD "") := by
  induction units with
  | nil => intro q; simp [formatSizeGo, sizeScaleGo]
  | cons u us ih =>
      intro q
      rw [formatSizeGo]
      by_cases h : q < BYTES_PER_KB
      · rw [if_pos h]
        have hs : sizeScaleGo q (u :: us).length = 0 := by
          simp [List.length_cons, sizeScaleGo, h]
        rw [hs]
        simp
      · rw [if_neg h]
        rw [ih (q / BYTES_PER_KB)]
        have hs : sizeScaleGo q (u :: us).length
            = sizeScaleGo (q / BYTES_PER_KB) us.length + 1 := by
          simp [List.length_cons, sizeScaleGo, h]
        rw [hs]
        have harg : q / BYTES_PER_KB / BYTES_PER_KB ^ sizeScaleGo (q / BYTES_PER_KB) us.length
            = q / BYTES_PER_KB ^ (sizeScaleGo (q / BYTES_PER_KB) us.length + 1) := by
          rw [div_div, pow_succ]
          ring_nf
        rw [harg]
        simp [List.getD_cons_succ]

lemma format_size_eq (q : ℚ) :
    format_size q =
      format2 (q / BYTES_PER_KB ^ sizeScale q) ++ " " ++ SIZE_UNITS.getD (sizeScale q) "" := by
  have hlen : (SIZE_UNITS.dropLast).length = 4 := rfl
  have hscale : sizeScale q = sizeScaleGo q 4 := rfl
  rw [format_size, formatSizeGo_eq, hlen, ← hscale]
  have hb : sizeScale q ≤ 4 := hscale ▸ sizeScaleGo_le 4 q
  congr 1
  set s := sizeScale q with hs
  interval_cases s <;> rfl

lemma displayNum_mono (a b : ℚ) (hab : a ≤ b) (hsc : sizeScale a = sizeScale b) :
    displayNum a ≤ displayNum b := by
  unfold displayNum
  rw [hsc, round_eq, round_eq]
  have hKB : (0 : ℚ) < BYTES_PER_KB ^ sizeScale b := by
    have : (0 : ℚ) < BYTES_PER_KB := by norm_num [BYTES_PER_KB]
    positivity
  apply Int.floor_le_floor
  have h := (div_le_div_iff_of_pos_right hKB).2 hab
  nlinarith

/-- utils.py `calculate_savings`: percentage saved by optimization. -/
def calculate_savings (original optimized : ℚ) : ℚ :=
  if original = 0 then 0
  else ((original - optimized) / original) * 100

/-! ## Theorems about utils.py -/

/-- C8: `calculate_savings x x = 0` for every `x`;
`calculate_savings x 0 = 100` for every `x > 0`;
`calculate_savings 0 0 = 0`; and `calculate_savings 1000 500 = 50`. -/
theorem calculate_savings_spec :
    (∀ x : ℚ, calculate_savings x x = 0) ∧
    (∀ x : ℚ, 0 < x → calculate_savings x 0 = 100) ∧
    calculate_savings 0 0 = 0 ∧
    calculate_savings 1000 500 = 50 := by
  refine ⟨fun x => ?_, fun x hx => ?_, by norm_num [calculate_savings],
    by norm_num [calculate_savings]⟩
  · unfold calculate_savings
    split_ifs with h
    · rfl
    · simp
  · unfold calculate_savings
    rw [if_neg hx.ne']
    rw [sub_zero, div_self hx.ne']
    norm_num

/-- Witness for C8 at `x = 7`. -/
theorem calculate_savings_spec_witness :
    calculate_savings 7 7 = 0 ∧ calculate_savings 7 0 = 100 := by
  refine ⟨calculate_savings_spec.1 7, calculate_savings_spec.2.1 7 ?_⟩
  norm_num

/-- C10: `calculate_savings` does not clamp to `[0, 100]`: when the
"optimized" size exceeds the original, the result is the raw formula's
value and is strictly negative. -/
theorem calculate_savings_not_clamped (original optimized : ℚ)
    (h0 : 0 < original) (hgt : original < optimized) :
    calculate_savings original optimized =
      ((original - optimized) / original) * 100 ∧
    calculate_savings original optimized < 0 := by
  have hne : original ≠ 0 := h0.ne'
  constructor
  · unfold calculate_savings
    rw [if_neg hne]
  · unfold calculate_savings
    rw [if_neg hne]
    have hnum : original - optimized < 0 := by linarith
    have hdiv : (original - optimized) / original < 0 := div_neg_of_neg_of_pos hnum h0
    nlinarith

/-- Witness for C10 at `(original, optimized) = (1000, 2000)`. -/
theorem calculate_savings_not_clamped_witness :
    calculate_savings 1000 2000 = ((1000 - 2000) / 1000) * 100 ∧
    calculate_savings 1000 2000 < 0 :=
  calculate_savings_not_clamped 1000 2000 (by norm_num) (by norm_num)

/-- C9: `format_size 0 = "0.00 B"`; `format_size 1024 = "1.00 KB"`;
`format_size 1099511627776 = "1.00 TB"` (so the string contains the unit
"TB"); the printed string is the scaled value rounded to two decimals
followed by the selected unit; and for byte counts `a ≤ b` falling in the
same unit scale the printed numeric value for `a` is at most that for `b`. -/
theorem format_size_spec :
    format_size 0 = "0.00 B" ∧
    format_size 1024 = "1.00 KB" ∧
    format_size 1099511627776 = "1.00 TB" ∧
    (∀ q : ℚ, format_size q =
      format2 (q / BYTES_PER_KB ^ sizeScale q) ++ " " ++ SIZE_UNITS.getD (sizeScale q) "") ∧
    (∀ a b : ℚ, 0 ≤ a → a ≤ b → sizeScale a = sizeScale b →
      displayNum a ≤ displayNum b) := by
  refine ⟨?_, ?_, ?_, format_size_eq, fun a b _ hab hsc => displayNum_mono a b hab hsc⟩
  · norm_num [format_size, formatSizeGo, format2, twoDigits, BYTES_PER_KB, SIZE_UNITS,
      round_eq, Int.floor_eq_iff]
    rfl
  · norm_num [format_size, formatSizeGo, format2, twoDigits, BYTES_PER_KB, SIZE_UNITS,
      round_eq, Int.floor_eq_iff]
    rfl
  · norm_num [format_size, formatSizeGo, format2, twoDigits, BYTES_PER_KB, SIZE_UNITS,
      round_eq, Int.floor_eq_iff]
    rfl

/-- Witness for C9's monotonicity conjunct at `(a, b) = (1, 2)`. -/
theorem format_size_spec_witness :
    (0 : ℚ) ≤ 1 ∧ (1 : ℚ) ≤ 2 ∧ sizeScale 1 = sizeScale 2 ∧ displayNum 1 ≤ displayNum 2 := by
  have h1 : (0 : ℚ) ≤ 1 := by norm_num
  have h2 : (1 : ℚ) ≤ 2 := by norm_num
  have h3 : sizeScale 1 = sizeScale 2 := by
    norm_num [sizeScale, sizeScaleGo, BYTES_PER_KB, SIZE_UNITS]
  exact ⟨h1, h2, h3, format_size_spec.2.2.2.2 1 2 h1 h2 h3⟩

/-! ## optimizer.py -/

/-- optimizer.py: `SUPPORTED_FORMATS = ['PNG', 'JPEG', 'WEBP', 'MPO']`. -/
def SUPPORTED_FORMATS : List String := ["PNG", "JPEG", "WEBP", "MPO"]

/-- Python truthiness of an optional integer (`None` and `0` are falsy),
as used by the `if not self.max_width ...` / `if self.max_width and ...`
tests in `_resize_if_needed`. -/
def truthy : Option Nat → Bool
  | none => false
  | some n => n != 0

/-- `ImageOptimizer._resize_if_needed`, acting on image dimensions
`(width, height)`.  `int(height * (max_width / width))` on nonnegative
values is floor, modelled by `Nat` floor division `height * mw / width`
(the float rounding of the Python expression is not modelled).
The height check runs after — and on the result of — the width check;
the image is resized only when the `needs_resize` flag was set. -/
def resize_if_needed (max_width max_height : Option Nat) (size : Nat × Nat) :
    Nat × Nat :=
  if ¬ truthy max_width ∧ ¬ truthy max_height then size
  else
    let p1 : Bool × Nat × Nat :=
      match max_width with
      | some mw =>
          if mw ≠ 0 ∧ size.1 > mw then (true, mw, size.2 * mw / size.1)
          else (false, size.1, size.2)
      | none => (false, size.1, size.2)
    let p2 : Bool × Nat × Nat :=
      match max_height with
      | some mh =>
          if mh ≠ 0 ∧ p1.2.2 > mh then (true, p1.2.1 * mh / p1.2.2, mh)
          else (p1.1, p1.2.1, p1.2.2)
      | none => (p1.1, p1.2.1, p1.2.2)
    if p2.1 then (p2.2.1, p2.2.2) else size

/-- Rounding to nearest (half up) of the fraction `a / b`: the spec's
`round(originalHeight * maxWidth / originalWidth)` applied to `a / b`. -/
def round_div (a b : Nat) : Nat := (2 * a + b) / (2 * b)

/-- C1 counterexample: a 5×7 image resized to `max_width = 4` gets height
`int(7 * 4/5) = 5`, not `round(7 * 4/5) = 6`: the code truncates. -/
theorem resize_round_counterexample :
    (resize_if_needed (some 4) none (5, 7)).2 = 5 ∧
    round_div (7 * 4) 5 = 6 ∧
    (resize_if_needed (some 4) none (5, 7)).2 ≠ round_div (7 * 4) 5 := by
  decide

/-- C1 (amended): for a width-bound resize (width exceeds `max_width`,
no height bound), the new width is `max_width` and the new height is the
aspect-ratio-scaled original height rounded DOWN (truncation):
`newHeight = floor(originalHeight * maxWidth / originalWidth)`. -/
theorem resize_width_bound (mw w h : Nat) (h0 : 0 < mw) (hw : mw < w) :
    resize_if_needed (some mw) none (w, h) = (mw, h * mw / w) := by
  have hne : mw ≠ 0 := by omega
  unfold resize_if_needed
  rw [if_neg]
  swap
  · simp [truthy, hne]
  simp only
  simp [hne, hw]

/-- Witness for C1's amended theorem at `(mw, w, h) = (4, 5, 7)`. -/
theorem resize_width_bound_witness :
    resize_if_needed (some 4) none (5, 7) = (4, 5) :=
  resize_width_bound 4 5 7 (by decide) (by decide)

/-- One of the external calls made by `optimize_image` that can raise an
exception (all of its body runs under `try ... except Exception`). -/
inductive Stage
  | decode   -- `Image.open` / `input_path.stat()`
  | encode   -- `img.save(buffer, ...)` into the in-memory buffer
  | disk   -- `mkdir` / `open` / `write` / `touch` / `utime` on the output
deriving DecidableEq

/-- Observable outcomes of the external calls made by one
`optimize_image` invocation: the PIL-reported format, the input file's
size on disk, the encoder's output size, and which external call (if
any) raises an exception in this environment.  The pixel data itself is
external and not modelled; the encoder's output size is taken as given. -/
structure OptEnv where
  suffix : String            -- `input_path.suffix`
  pilFormat : Option String  -- `img.format`
  originalSize : Nat         -- `input_path.stat().st_size`
  encodedSize : Nat          -- `buffer.tell()` after the in-memory save
  failAt : Option Stage      -- external call that raises, if any
deriving DecidableEq

/-- The result dictionary returned by a successful `optimize_image`. -/
structure OptResult where
  path : String
  original_size : Nat
  optimized_size : Nat
deriving DecidableEq

/-- Filesystem side effects of one run (paths are opaque strings). -/
structure Effects where
  mkdirCalls : List String   -- `output_path.parent.mkdir(parents=True, exist_ok=True)`
  fileWrites : List String   -- `open(output_path, "wb").write(...)`
  utimeCalls : List String   -- `touch` + `os.utime` on `output_path`
deriving DecidableEq

/-- No filesystem effects. -/
def Effects.noEffects : Effects := ⟨[], [], []⟩

/-- Sequencing of filesystem effects. -/
def Effects.append (e f : Effects) : Effects :=
  ⟨e.mkdirCalls ++ f.mkdirCalls, e.fileWrites ++ f.fileWrites,
   e.utimeCalls ++ f.utimeCalls⟩

/-- Paths are opaque tokens; `parent p` stands for `p.parent`. -/
def parent (p : String) : String := "parent:" ++ p

/-- The extension-based format fallback in `optimize_image` (applied to
`input_path.suffix.lower()` when PIL reports no format). -/
def ext_format (ext : String) : Option String :=
  if ext = ".webp" then some "WEBP"
  else if ext = ".png" then some "PNG"
  else if ext = ".jpg" ∨ ext = ".jpeg" then some "JPEG"
  else none

/-- The effective `img_format` value in `optimize_image`: the
PIL-detected format, else the extension fallback. -/
def effective_format (env : OptEnv) : Option String :=
  match env.pilFormat with
  | some f => some f
  | none => ext_format env.suffix.toLower

/-- `ImageOptimizer.optimize_image`: returns the result dictionary (or
`none` when the file is skipped or an exception was caught) together
with the filesystem effects performed.  The whole body runs inside
`try ... except Exception`, so a raising external call yields `none`. -/
def optimize_image (env : OptEnv) (input_path output_path : String)
    (dry_run : Bool) : Option OptResult × Effects :=
  if env.failAt = some Stage.decode then (none, Effects.noEffects)
  else
    match effective_format env with
    | none => (none, Effects.noEffects)   -- `None not in SUPPORTED_FORMATS`
    | some fmt =>
      if fmt ∉ SUPPORTED_FORMATS then (none, Effects.noEffects)
      else if env.failAt = some Stage.encode then (none, Effects.noEffects)
      else if env.encodedSize ≥ env.originalSize then
        -- "Skipped (would increase size)": discarded before any write
        (none, Effects.noEffects)
      else if dry_run then
        (some ⟨input_path, env.originalSize, env.encodedSize⟩, Effects.noEffects)
      else if env.failAt = some Stage.disk then
        -- the exception inside the write block is caught; the parent
        -- directory may already have been created
        (none, ⟨[parent output_path], [], []⟩)
      else
        (some ⟨input_path, env.originalSize, env.encodedSize⟩,
         ⟨[parent output_path], [output_path], [output_path]⟩)

/-- One file of a batch: its environment, source path, and the
destination path `output_dir / img_path.relative_to(input_dir)`
computed by `process_batch`. -/
structure BatchItem where
  env : OptEnv
  input_path : String
  output_path : String
deriving DecidableEq

/-- The loop body of `process_batch` (sequential branch, `workers == 1`):
append the result when `optimize_image` returns one. -/
def batch_step (dry_run : Bool) (acc : List OptResult × Effects)
    (it : BatchItem) : List OptResult × Effects :=
  let r := optimize_image it.env it.input_path it.output_path dry_run
  (match r.1 with
   | some v => acc.1 ++ [v]
   | none => acc.1,
   Effects.append acc.2 r.2)

/-- `ImageOptimizer.process_batch` (sequential branch): process every
file in order, collecting the successful results and the effects. -/
def process_batch (items : List BatchItem) (dry_run : Bool) :
    List OptResult × Effects :=
  items.foldl (batch_step dry_run) ([], Effects.noEffects)

/-- cli.py: `total_original = sum(r['original_size'] for r in results)`. -/
def total_original (rs : List OptResult) : Nat :=
  (rs.map (fun r => r.original_size)).sum

/-- cli.py: `total_optimized = sum(r['optimized_size'] for r in results)`. -/
def total_optimized (rs : List OptResult) : Nat :=
  (rs.map (fun r => r.optimized_size)).sum

/-- cli.py line 138: the output directory is pre-created only when
`not dry_run and not in_place`. -/
def cli_creates_output_dir (dry_run in_place : Bool) : Bool :=
  !dry_run && !in_place


/-! ## Lemmas about optimize_image / process_batch -/

lemma Effects.noEffects_append (e : Effects) :
    Effects.append Effects.noEffects e = e := by
  cases e
  simp [Effects.append, Effects.noEffects]

lemma Effects.append_noEffects (e : Effects) :
    Effects.append e Effects.noEffects = e := by
  cases e
  simp [Effects.append, Effects.noEffects]

lemma Effects.append_assoc (a b c : Effects) :
    Effects.append (Effects.append a b) c = Effects.append a (Effects.append b c) := by
  cases a
  cases b
  cases c
  simp [Effects.append]

lemma batch_step_eq (d : Bool) (a : List OptResult) (b : Effects) (it : BatchItem) :
    batch_step d (a, b) it =
      (a ++ (match (optimize_image it.env it.input_path it.output_path d).1 with
             | some v => [v]
             | none => []),
       Effects.append b (optimize_image it.env it.input_path it.output_path d).2) := by
  unfold batch_step
  cases h : (optimize_image it.env it.input_path it.output_path d).1 <;> simp [h]

lemma process_batch_shift (d : Bool) (items : List BatchItem) :
    ∀ (rs : List OptResult) (es : Effects),
      List.foldl (batch_step d) (rs, es) items =
        (rs ++ (process_batch items d).1,
         Effects.append es (process_batch items d).2) := by
  induction items with
  | nil =>
      intro rs es
      simp [process_batch, Effects.append_noEffects]
  | cons it rest ih =>
      intro rs es
      rw [process_batch, List.foldl_cons, List.foldl_cons, batch_step_eq, batch_step_eq,
        ih, ih]
      simp [Effects.noEffects_append, Effects.append_assoc, List.append_assoc]

lemma process_batch_append_eq (xs ys : List BatchItem) (d : Bool) :
    process_batch (xs ++ ys) d =
      ((process_batch xs d).1 ++ (process_batch ys d).1,
       Effects.append (process_batch xs d).2 (process_batch ys d).2) := by
  rw [process_batch, List.foldl_append]
  rw [show List.foldl (batch_step d) ([], Effects.noEffects) xs = process_batch xs d from rfl]
  rcases hp : process_batch xs d with ⟨rs, es⟩
  rw [process_batch_shift]

lemma optimize_image_skip (env : OptEnv) (ip op : String) (d : Bool)
    (h : env.originalSize ≤ env.encodedSize) :
    optimize_image env ip op d = (none, Effects.noEffects) := by
  by_cases h1 : env.failAt = some Stage.decode
  · simp [optimize_image, h1]
  · rcases hf : effective_format env with _ | fmt
    · simp [optimize_image, h1, hf]
    · simp [optimize_image, h1, hf, h, ge_iff_le]

lemma optimize_image_dry (env : OptEnv) (ip op : String)
    (h : env.failAt ≠ some Stage.disk) :
    optimize_image env ip op true = ((optimize_image env ip op false).1, Effects.noEffects) := by
  unfold optimize_image
  by_cases h1 : env.failAt = some Stage.decode
  · simp [h1]
  · rcases hf : effective_format env with _ | fmt
    · simp [h1, hf]
    · simp only [h1, hf, if_false]
      split_ifs with h2 h3 h4 <;> simp_all


theorem skip_when_not_smaller (env : OptEnv) (ip op : String) (d : Bool)
    (h : env.originalSize ≤ env.encodedSize) :
    (optimize_image env ip op d).1 = none ∧
    (optimize_image env ip op d).2 = Effects.noEffects ∧
    (∀ (items : List BatchItem) (d' : Bool),
      (∀ it ∈ items, it.env.originalSize ≤ it.env.encodedSize) →
      (process_batch items d').1 = []) := by
  refine ⟨by rw [optimize_image_skip env ip op d h],
          by rw [optimize_image_skip env ip op d h], ?_⟩
  intro items d'
  induction items with
  | nil => intro _; rfl
  | cons it rest ih =>
      intro hall
      have hit := optimize_image_skip it.env it.input_path it.output_path d'
        (hall it (by simp))
      have hrest := ih (fun x hx => hall x (List.mem_cons_of_mem _ hx))
      rw [process_batch, List.foldl_cons, batch_step_eq, hit, process_batch_shift]
      simpa using hrest

theorem skip_when_not_smaller_witness :
    (optimize_image ⟨".png", some "PNG", 100, 150, none⟩ "a.png" "out/a.png" false).1 = none ∧
    (optimize_image ⟨".png", some "PNG", 100, 150, none⟩ "a.png" "out/a.png" false).2
      = Effects.noEffects ∧
    (process_batch [⟨⟨".png", some "PNG", 100, 150, none⟩, "a.png", "out/a.png"⟩] false).1
      = [] := by
  have h := skip_when_not_smaller ⟨".png", some "PNG", 100, 150, none⟩ "a.png" "out/a.png"
    false (by norm_num)
  exact ⟨h.1, h.2.1, h.2.2 _ false (by intro it hit; simp at hit; simp [hit])⟩

theorem errors_caught :
    (∀ (env : OptEnv) (ip op : String) (d : Bool),
      env.failAt = some Stage.decode ∨ env.failAt = some Stage.encode →
      (optimize_image env ip op d).1 = none) ∧
    (∀ (env : OptEnv) (ip op : String),
      env.failAt = some Stage.disk →
      (optimize_image env ip op false).1 = none) ∧
    (∀ (xs ys : List BatchItem) (d : Bool),
      process_batch (xs ++ ys) d =
        ((process_batch xs d).1 ++ (process_batch ys d).1,
         Effects.append (process_batch xs d).2 (process_batch ys d).2)) := by
  refine ⟨?_, ?_, process_batch_append_eq⟩
  · rintro env ip op d (h | h)
    · simp [optimize_image, h]
    · by_cases h1 : env.failAt = some Stage.decode
      · simp [optimize_image, h1]
      · rcases hf : effective_format env with _ | fmt
        · simp [optimize_image, h1, hf]
        · simp only [optimize_image, h1, hf, if_false]
          split_ifs <;> simp_all
  · intro env ip op h
    by_cases h1 : env.failAt = some Stage.decode
    · simp [optimize_image, h1]
    · rcases hf : effective_format env with _ | fmt
      · simp [optimize_image, h1, hf]
      · simp only [optimize_image, h1, hf, if_false]
        split_ifs <;> simp_all

theorem errors_caught_witness :
    (optimize_image ⟨".png", some "PNG", 100, 50, some Stage.decode⟩ "a.png" "o.png" false).1
      = none ∧
    (optimize_image ⟨".png", some "PNG", 100, 50, some Stage.disk⟩ "a.png" "o.png" false).1
      = none :=
  ⟨errors_caught.1 _ "a.png" "o.png" false (Or.inl rfl),
   errors_caught.2.1 _ "a.png" "o.png" rfl⟩

theorem dry_run_frame (items : List BatchItem)
    (h : ∀ it ∈ items, it.env.failAt ≠ some Stage.disk) :
    (process_batch items true).1 = (process_batch items false).1 ∧
    (process_batch items true).2 = Effects.noEffects ∧
    total_original ((process_batch items true).1)
      = total_original ((process_batch items false).1) ∧
    total_optimized ((process_batch items true).1)
      = total_optimized ((process_batch items false).1) ∧
    (∀ in_place : Bool, cli_creates_output_dir true in_place = false) := by
  have key : ∀ its : List BatchItem, (∀ it ∈ its, it.env.failAt ≠ some Stage.disk) →
      (process_batch its true).1 = (process_batch its false).1 ∧
      (process_batch its true).2 = Effects.noEffects := by
    intro its
    induction its with
    | nil => intro _; exact ⟨rfl, rfl⟩
    | cons it rest ih =>
        intro hall
        have hit := optimize_image_dry it.env it.input_path it.output_path
          (hall it (by simp))
        have hrest := ih (fun x hx => hall x (List.mem_cons_of_mem _ hx))
        constructor
        · rw [process_batch, List.foldl_cons, batch_step_eq, hit, process_batch_shift]
          conv_rhs => rw [process_batch, List.foldl_cons, batch_step_eq, process_batch_shift]
          simp [hrest.1, Effects.noEffects_append]
        · rw [process_batch, List.foldl_cons, batch_step_eq, hit, process_batch_shift]
          simp [hrest.2, Effects.noEffects_append]
  have hk := key items h
  exact ⟨hk.1, hk.2, by rw [hk.1], by rw [hk.1], fun ip => rfl⟩

theorem dry_run_frame_witness :
    (process_batch [⟨⟨".png", some "PNG", 100, 50, none⟩, "a.png", "out/a.png"⟩] true).1
      = (process_batch [⟨⟨".png", some "PNG", 100, 50, none⟩, "a.png", "out/a.png"⟩] false).1 ∧
    (process_batch [⟨⟨".png", some "PNG", 100, 50, none⟩, "a.png", "out/a.png"⟩] true).2
      = Effects.noEffects := by
  have h := dry_run_frame [⟨⟨".png", some "PNG", 100, 50, none⟩, "a.png", "out/a.png"⟩]
    (by intro it hit; simp at hit; simp [hit])
  exact ⟨h.1, h.2.1⟩


/-! ## cli.py -/

/-- cli.py option merging for quality:
`quality = quality if quality != 85 else cfg.get('quality', 85)`.
`cli` is the value delivered by the argument parser, `cfg` the value
found in the config file (if any). -/
def merge_quality (cli : Int) (cfg : Option Int) : Int :=
  if cli ≠ 85 then cli else cfg.getD 85

/-- `ImageOptimizer.__init__` stores the quality unvalidated. -/
def optimizer_quality (quality : Int) : Int := quality

/-- C4: quality precedence: an explicitly-set CLI value (≠ 85) wins;
otherwise the config value when present; otherwise the default 85 — so a
CLI quality equal to 85 is overridden by the config file. -/
theorem merge_quality_precedence :
    (∀ cli : Int, cli ≠ 85 → ∀ cfg : Option Int, merge_quality cli cfg = cli) ∧
    (∀ q : Int, merge_quality 85 (some q) = q) ∧
    merge_quality 85 none = 85 := by
  refine ⟨fun cli h cfg => ?_, fun q => ?_, ?_⟩
  · simp [merge_quality, h]
  · simp [merge_quality]
  · simp [merge_quality]

/-- Witness for C4 at `cli = 70` and at `cli = 85, cfg = some 42`. -/
theorem merge_quality_precedence_witness :
    merge_quality 70 (some 42) = 70 ∧ merge_quality 85 (some 42) = 42 :=
  ⟨merge_quality_precedence.1 70 (by norm_num) (some 42),
   merge_quality_precedence.2.1 42⟩

/-- C5 counterexample: with the CLI at its default 85 and a config file
declaring `quality: 500`, the optimizer receives quality 500 ∉ [1, 100]:
the config path is unvalidated. -/
theorem quality_range_counterexample :
    optimizer_quality (merge_quality 85 (some 500)) = 500 ∧
    ¬ (1 ≤ optimizer_quality (merge_quality 85 (some 500)) ∧
       optimizer_quality (merge_quality 85 (some 500)) ≤ 100) := by
  constructor
  · simp [merge_quality, optimizer_quality]
  · simp [merge_quality, optimizer_quality]

/-- C5 (amended): quality ∈ [1, 100] holds whenever the CLI value is in
range (the parser's `IntRange(1, 100)` guarantees this) and any
config-file quality that gets used is itself in range; the config value
is otherwise passed through unvalidated. -/
theorem quality_range_invariant (cli : Int) (cfg : Option Int)
    (hcli : 1 ≤ cli ∧ cli ≤ 100)
    (hcfg : ∀ q : Int, cfg = some q → 1 ≤ q ∧ q ≤ 100) :
    1 ≤ optimizer_quality (merge_quality cli cfg) ∧
    optimizer_quality (merge_quality cli cfg) ≤ 100 := by
  unfold optimizer_quality merge_quality
  split_ifs with h
  · exact hcli
  · cases cfg with
    | none => simp
    | some q => simpa using hcfg q rfl

/-- Witness for C5's amended theorem at `cli = 85`, `cfg = some 70`. -/
theorem quality_range_invariant_witness :
    1 ≤ optimizer_quality (merge_quality 85 (some 70)) ∧
    optimizer_quality (merge_quality 85 (some 70)) ≤ 100 :=
  quality_range_invariant 85 (some 70) (by norm_num)
    (fun q hq => by cases hq; norm_num)


/-! ## cli.py: file discovery -/

/-- Tokens of an fnmatch-style glob pattern component as interpreted by
`Path.glob`: a `*` wildcard or a literal character (the cli.py patterns
contain no `?` or `[...]`). -/
inductive GlobTok
  | star
  | ch (c : Char)
deriving DecidableEq

/-- fnmatch of one token pattern against one name: `*` matches any
(possibly empty) run of characters, a literal matches itself. -/
def fnmatchL : List GlobTok → List Char → Bool
  | [], xs => xs.isEmpty
  | GlobTok.ch _ :: _, [] => false
  | GlobTok.ch c :: ps, x :: xs => c == x && fnmatchL ps xs
  | GlobTok.star :: ps, xs =>
      (List.range (xs.length + 1)).any (fun k => fnmatchL ps (xs.drop k))

/-- Read a glob pattern string into tokens. -/
def toToks (p : List Char) : List GlobTok :=
  p.map (fun c => if c = '*' then GlobTok.star else GlobTok.ch c)

/-- One path component matches one glob pattern component. -/
def fnmatch (p name : List Char) : Bool := fnmatchL (toToks p) name

/-- A relative path (list of name components) matches a slash-separated
glob pattern: the same number of components, matching position-wise
(`Path.glob` only yields entries whose every pattern component is
realised on the walk down from the root). -/
def components_match : List (List Char) → List (List Char) → Bool
  | [], [] => true
  | p :: ps, c :: cs => fnmatch p c && components_match ps cs
  | _, _ => false

/-- cli.py's `extensions` list, verbatim: the eight glob strings. -/
def extensions : List (List Char) :=
  ["*.png".toList, "*.PNG".toList, "*.jpg".toList, "*.JPG".toList,
   "*.jpeg".toList, "*.JPEG".toList, "*.webp".toList, "*.WEBP".toList]

/-- cli.py: `pattern = '**/*' if recursive else '*'` followed by
`pattern.replace('*', ext)`.  Non-recursive mode globs `ext` itself;
recursive mode globs `ext ++ ext ++ "/" ++ ext` (for `ext = "*.png"`
this is the mangled `*.png*.png/*.png`), given here as its
slash-separated component patterns. -/
def pattern_for (recursive : Bool) (ext : List Char) : List (List Char) :=
  if recursive then [ext ++ ext, ext] else [ext]

/-- `input_path.glob(pattern.replace('*', ext))` membership for an entry
given by its relative path from the input directory. -/
def path_matches (recursive : Bool) (ext : List Char) (f : List (List Char)) :
    Bool :=
  components_match (pattern_for recursive ext) f

/-- The discovery loop of cli.py's `optimize`: for each of the eight
extension globs, extend the candidate list with the entries the derived
pattern matches and `should_skip` does not exclude (`skip` abstracts
`should_skip` applied to the merged skip patterns). -/
def discover (recursive : Bool) (files : List (List (List Char)))
    (skip : List (List Char) → Bool) : List (List (List Char)) :=
  extensions.foldl
    (fun acc ext =>
      acc ++ files.filter (fun f => path_matches recursive ext f && !skip f)) []

/-- The claim's notion of matching: the final path component's extension
matches one of png/jpg/jpeg/webp case-insensitively. -/
def ci_ext_match (f : List (List Char)) : Bool :=
  match f.getLast? with
  | some name =>
      [".png".toList, ".jpg".toList, ".jpeg".toList, ".webp".toList].any
        (fun p => decide (p <:+ name.map Char.toLower))
  | none => false

/-- `discover` generalised over the per-extension match predicate and an
explicit extension list (for induction). -/
def discoverP (m : List Char → List (List Char) → Bool)
    (exts : List (List Char)) (files : List (List (List Char)))
    (skip : List (List Char) → Bool) : List (List (List Char)) :=
  exts.foldl (fun acc e => acc ++ files.filter (fun f => m e f && !skip f)) []

lemma discover_eq_discoverP (r : Bool) (files : List (List (List Char)))
    (skip : List (List Char) → Bool) :
    discover r files skip = discoverP (path_matches r) extensions files skip := rfl

lemma foldl_acc_append (m : List Char → List (List Char) → Bool)
    (files : List (List (List Char))) (skip : List (List Char) → Bool)
    (ps : List (List Char)) :
    ∀ init : List (List (List Char)),
      ps.foldl (fun acc e => acc ++ files.filter (fun f => m e f && !skip f)) init
        = init ++ discoverP m ps files skip := by
  induction ps with
  | nil => intro init; simp [discoverP]
  | cons p ps ih =>
      intro init
      rw [List.foldl_cons, ih]
      conv_rhs => rw [discoverP, List.foldl_cons, ih]
      simp [List.append_assoc]

lemma discoverP_cons (m : List Char → List (List Char) → Bool) (p : List Char)
    (ps : List (List Char)) (files : List (List (List Char)))
    (skip : List (List Char) → Bool) :
    discoverP m (p :: ps) files skip =
      files.filter (fun f => m p f && !skip f) ++ discoverP m ps files skip := by
  rw [discoverP, List.foldl_cons, foldl_acc_append]
  simp

lemma count_filter_eq {α} [BEq α] [LawfulBEq α] (p : α → Bool) (l : List α)
    (a : α) :
    (l.filter p).count a = if p a then l.count a else 0 := by
  by_cases h : p a
  · rw [if_pos h, List.count_filter]
    simpa using h
  · rw [if_neg h]
    refine List.count_eq_zero.2 (fun hm => h ?_)
    simpa using List.of_mem_filter hm

lemma count_le_one_of_nodup {α} [BEq α] [LawfulBEq α] (l : List α) (hnd : l.Nodup)
    (a : α) : l.count a ≤ 1 := by
  induction l with
  | nil => simp
  | cons b l ih =>
      rw [List.count_cons]
      rcases List.nodup_cons.1 hnd with ⟨hb, hl⟩
      by_cases h : b = a
      · subst h
        have h0 : l.count b = 0 := List.count_eq_zero.2 hb
        simp [h0]
      · simp only [beq_iff_eq, h, if_false]
        simpa using ih hl

lemma count_eq_one_of_mem_nodup {α} [BEq α] [LawfulBEq α] (l : List α) (hnd : l.Nodup)
    (a : α) (ha : a ∈ l) : l.count a = 1 := by
  induction l with
  | nil => simp at ha
  | cons b l ih =>
      rw [List.count_cons]
      rcases List.nodup_cons.1 hnd with ⟨hb, hl⟩
      rcases List.mem_cons.1 ha with rfl | ha'
      · have h0 : l.count a = 0 := List.count_eq_zero.2 hb
        simp [h0]
      · have hba : ¬ b = a := fun h => hb (h ▸ ha')
        simp only [beq_iff_eq, hba, if_false]
        simpa using ih hl ha'

lemma discoverP_count_zero (m : List Char → List (List Char) → Bool)
    (exts : List (List Char)) (files : List (List (List Char)))
    (skip : List (List Char) → Bool) (f : List (List Char))
    (h : ∀ e ∈ exts, (m e f && !skip f) = false) :
    (discoverP m exts files skip).count f = 0 := by
  induction exts with
  | nil => rfl
  | cons p ps ih =>
      rw [discoverP_cons, List.count_append, count_filter_eq]
      rw [if_neg (by simp [h p (List.mem_cons_self p ps)])]
      simpa using ih (fun q hq => h q (List.mem_cons_of_mem p hq))

lemma discoverP_count (m : List Char → List (List Char) → Bool)
    (exts : List (List Char)) :
    ∀ (files : List (List (List Char))) (skip : List (List Char) → Bool)
      (f : List (List Char)),
      files.Nodup → exts.Nodup →
      (∀ e1 ∈ exts, ∀ e2 ∈ exts, ∀ g, m e1 g = true → m e2 g = true → e1 = e2) →
      ((discoverP m exts files skip).count f ≤ 1 ∧
        ((∃ e ∈ exts, m e f = true) → skip f = false → f ∈ files →
          (discoverP m exts files skip).count f = 1)) := by
  induction exts with
  | nil =>
      intro files skip f hnd _ _
      refine ⟨by simp [discoverP], ?_⟩
      rintro ⟨e, he, _⟩
      simp at he
  | cons p ps ih =>
      intro files skip f hnd hndp hdisj
      have hp_not_mem : p ∉ ps := (List.nodup_cons.1 hndp).1
      have hdisj' : ∀ a ∈ ps, ∀ b ∈ ps, ∀ g, m a g = true → m b g = true → a = b :=
        fun a ha b hb => hdisj a (List.mem_cons_of_mem p ha) b (List.mem_cons_of_mem p hb)
      have IH := ih files skip f hnd (List.nodup_cons.1 hndp).2 hdisj'
      rw [discoverP_cons, List.count_append, count_filter_eq]
      by_cases hp : (m p f && !skip f) = true
      · have h1 : m p f = true ∧ (!skip f) = true := by
          simpa [Bool.and_eq_true] using hp
        have hzero : (discoverP m ps files skip).count f = 0 := by
          apply discoverP_count_zero
          intro q hq
          by_cases hm : m q f = true
          · exfalso
            have hqp : q = p :=
              hdisj q (List.mem_cons_of_mem p hq) p (List.mem_cons_self p ps) f hm h1.1
            exact hp_not_mem (hqp ▸ hq)
          · simp [Bool.and_eq_true, hm]
        rw [if_pos hp, hzero]
        constructor
        · simpa using count_le_one_of_nodup files hnd f
        · intro _ _ hf
          simpa using count_eq_one_of_mem_nodup files hnd f hf
      · rw [if_neg hp]
        simp only [Nat.zero_add]
        refine ⟨IH.1, ?_⟩
        rintro ⟨e, he, hme⟩ hskip hf
        rcases List.mem_cons.1 he with rfl | he'
        · exact absurd (by simp [hme, hskip]) hp
        · exact IH.2 ⟨e, he', hme⟩ hskip hf


lemma fnmatch_lits (lits : List Char) :
    ∀ xs : List Char, fnmatchL (lits.map GlobTok.ch) xs = true ↔ xs = lits := by
  induction lits with
  | nil =>
      intro xs
      cases xs <;> simp [fnmatchL]
  | cons c cs ih =>
      intro xs
      cases xs with
      | nil => simp [fnmatchL]
      | cons x xs =>
          simp only [List.map_cons, fnmatchL, Bool.and_eq_true, beq_iff_eq, ih]
          constructor
          · rintro ⟨rfl, rfl⟩
            rfl
          · intro h
            injection h with h1 h2
            exact ⟨h1.symm, h2⟩

lemma fnmatch_star_lits (lits xs : List Char) :
    fnmatchL (GlobTok.star :: lits.map GlobTok.ch) xs = true ↔ lits <:+ xs := by
  simp only [fnmatchL, List.any_eq_true, List.mem_range, fnmatch_lits]
  constructor
  · rintro ⟨k, _, hdrop⟩
    exact hdrop ▸ List.drop_suffix k xs
  · rintro ⟨t, rfl⟩
    refine ⟨t.length, by simp only [List.length_append]; omega, ?_⟩
    exact List.drop_left t lits

lemma toToks_no_star (lit : List Char) (h : '*' ∉ lit) :
    toToks lit = lit.map GlobTok.ch := by
  unfold toToks
  apply List.map_congr_left
  intro c hc
  have hne : ¬ c = '*' := fun e => h (e ▸ hc)
  simp [hne]

lemma path_matches_getLast (r : Bool) (e : List Char) (hhead : e.head? = some '*')
    (hstar : '*' ∉ e.tail) :
    ∀ f : List (List Char), path_matches r e f = true →
      ∃ x, f.getLast? = some x ∧ e.tail <:+ x := by
  obtain ⟨lit, rfl⟩ : ∃ lit, e = '*' :: lit := by
    cases e with
    | nil => simp at hhead
    | cons c cs =>
        simp only [List.head?_cons, Option.some.injEq] at hhead
        exact ⟨cs, by rw [hhead]⟩
  simp only [List.tail_cons] at hstar ⊢
  have htoks : toToks ('*' :: lit) = GlobTok.star :: lit.map GlobTok.ch := by
    rw [toToks, List.map_cons, if_pos rfl, ← toToks, toToks_no_star lit hstar]
  intro f hm
  cases r with
  | false =>
      simp only [path_matches, pattern_for, if_neg Bool.false_ne_true] at hm
      rcases f with _ | ⟨x, _ | ⟨y, rest⟩⟩
      · simp [components_match] at hm
      · refine ⟨x, rfl, ?_⟩
        have hx : fnmatch ('*' :: lit) x = true := by
          simpa [components_match] using hm
        rw [fnmatch, htoks] at hx
        exact (fnmatch_star_lits lit x).1 hx
      · simp [components_match] at hm
  | true =>
      simp only [path_matches, pattern_for, if_pos rfl] at hm
      rcases f with _ | ⟨x, _ | ⟨y, _ | ⟨z, rest⟩⟩⟩
      · simp [components_match] at hm
      · simp [components_match] at hm
      · refine ⟨y, by simp, ?_⟩
        have hy : fnmatch ('*' :: lit) y = true := by
          simp only [components_match, Bool.and_eq_true] at hm
          exact hm.2.1
        rw [fnmatch, htoks] at hy
        exact (fnmatch_star_lits lit y).1 hy
      · simp [components_match] at hm

lemma no_double_match (e1 e2 : List Char) (hh1 : e1.head? = some '*')
    (hh2 : e2.head? = some '*') (hs1 : '*' ∉ e1.tail) (hs2 : '*' ∉ e2.tail)
    (h12 : ¬ e1.tail <:+ e2.tail) (h21 : ¬ e2.tail <:+ e1.tail)
    (r : Bool) (g : List (List Char))
    (hm1 : path_matches r e1 g = true) (hm2 : path_matches r e2 g = true) :
    False := by
  obtain ⟨x, hx, hsuf1⟩ := path_matches_getLast r e1 hh1 hs1 g hm1
  obtain ⟨y, hy, hsuf2⟩ := path_matches_getLast r e2 hh2 hs2 g hm2
  rw [hx] at hy
  injection hy with hxy
  subst hxy
  rcases Nat.le_total e1.tail.length e2.tail.length with h | h
  · exact h12 (List.suffix_of_suffix_length_le hsuf1 hsuf2 h)
  · exact h21 (List.suffix_of_suffix_length_le hsuf2 hsuf1 h)

lemma extensions_disjoint (r : Bool) :
    ∀ e1 ∈ extensions, ∀ e2 ∈ extensions, ∀ g,
      path_matches r e1 g = true → path_matches r e2 g = true → e1 = e2 := by
  intro e1 h1 e2 h2 g hm1 hm2
  simp only [extensions, List.mem_cons, List.not_mem_nil, or_false] at h1 h2
  rcases h1 with rfl | rfl | rfl | rfl | rfl | rfl | rfl | rfl <;>
    rcases h2 with rfl | rfl | rfl | rfl | rfl | rfl | rfl | rfl <;>
      first
        | rfl
        | exact (no_double_match _ _ (by decide) (by decide) (by decide) (by decide)
            (by decide) (by decide) r g hm1 hm2).elim

lemma path_matches_single (e : List Char) (x : List Char) :
    path_matches true e [x] = false := by
  simp [path_matches, pattern_for, components_match]


/-- C3 counterexample: the claim fails in both discovery modes.
Non-recursive: `a.Png` matches `png` case-insensitively, yet each
`Path.glob` pattern is case-sensitive and only the all-lowercase and
all-uppercase spellings are listed, so the file appears zero times (not
once).  Recursive: `pattern.replace('*', ext)` mangles `**/*` into
`*.png*.png/*.png`, so even a root-level `a.png` appears zero times. -/
theorem discover_ci_counterexample :
    (ci_ext_match ["a.Png".toList] = true ∧
      (discover false [["a.Png".toList]] (fun _ => false)).count
        ["a.Png".toList] = 0) ∧
    (ci_ext_match ["a.png".toList] = true ∧
      (discover true [["a.png".toList]] (fun _ => false)).count
        ["a.png".toList] = 0) := by
  decide

/-- C3 (amended): discovery returns each entry at most once in both
modes (the eight derived patterns are pairwise disjoint on their final
component; there is no deduplication step).  In non-recursive mode an
entry matching one of the eight literal extension spellings, not
skipped, and present in the (duplicate-free) listing appears exactly
once; mixed-case extensions are never discovered.  In recursive mode the
mangled pattern `*.E*.E/*.E` matches only entries exactly two levels
down whose parent directory name matches `*.E*.E`, so a root-level
file — whatever its name — appears zero times. -/
theorem discover_count_spec (files : List (List (List Char)))
    (skip : List (List Char) → Bool) (f : List (List Char))
    (hnd : files.Nodup) :
    ((discover false files skip).count f ≤ 1 ∧
      (discover true files skip).count f ≤ 1) ∧
    ((∃ e ∈ extensions, path_matches false e f = true) → skip f = false →
      f ∈ files → (discover false files skip).count f = 1) ∧
    (∀ name : List Char, f = [name] →
      (discover true files skip).count f = 0) := by
  have hcf := discoverP_count (path_matches false) extensions files skip f hnd
    (by decide) (extensions_disjoint false)
  have hct := discoverP_count (path_matches true) extensions files skip f hnd
    (by decide) (extensions_disjoint true)
  refine ⟨⟨hcf.1, hct.1⟩, hcf.2, ?_⟩
  rintro name rfl
  rw [discover_eq_discoverP]
  apply discoverP_count_zero
  intro e _
  simp [path_matches_single]

/-- Witness for C3's amended theorem: a root-level lowercase-named file
is discovered exactly once non-recursively and zero times recursively. -/
theorem discover_count_spec_witness :
    (discover false [["a.png".toList]] (fun _ => false)).count
      ["a.png".toList] = 1 ∧
    (discover true [["a.png".toList]] (fun _ => false)).count
      ["a.png".toList] = 0 := by
  have h := discover_count_spec [["a.png".toList]] (fun _ => false)
    ["a.png".toList] (by decide)
  exact ⟨h.2.1 (by decide) rfl (by decide), h.2.2 "a.png".toList rfl⟩

end ImgOptimize
